import Mathlib

/-!
Shallow embedding of `src/src/oblam_deskew.cpp` (oblam_deskew ROS node).

Timestamps and all numeric sensor values are modelled as rationals (`ℚ`):
the C++ uses `double`, and every claim is about the exact arithmetic the
code performs, not about rounding.  Message types keep only the fields the
code reads.  Each Lean definition is a direct transcription of the C++
function of the same name; the two `ASSIGNMENT BLOCK` regions in the C++
are transcribed exactly as written (they leave the state unchanged,
resp. keep `j = -1`), since that is what the code under `src/` does.
-/

namespace OblamDeskew

/-- 3-vector of rationals, the embedding of `Eigen::Vector3d`. -/
structure V3 where
  x : ℚ
  y : ℚ
  z : ℚ
deriving DecidableEq, Repr

def V3.add (a b : V3) : V3 := ⟨a.x + b.x, a.y + b.y, a.z + b.z⟩

def V3.sub (a b : V3) : V3 := ⟨a.x - b.x, a.y - b.y, a.z - b.z⟩

def V3.smul (s : ℚ) (a : V3) : V3 := ⟨s * a.x, s * a.y, s * a.z⟩

def V3.zero : V3 := ⟨0, 0, 0⟩

/-- Quaternion (w, x, y, z) of rationals, the embedding of `Eigen::Quaterniond`
(`Quaternd` in the C++). -/
structure Quat where
  w : ℚ
  x : ℚ
  y : ℚ
  z : ℚ
deriving DecidableEq, Repr

/-- Hamilton product, as `Eigen`'s `operator*` on quaternions. -/
def Quat.mul (a b : Quat) : Quat :=
  ⟨a.w * b.w - a.x * b.x - a.y * b.y - a.z * b.z,
   a.w * b.x + a.x * b.w + a.y * b.z - a.z * b.y,
   a.w * b.y - a.x * b.z + a.y * b.w + a.z * b.x,
   a.w * b.z + a.x * b.y - a.y * b.x + a.z * b.w⟩

/-- Rotation of a vector by a quaternion (`q * v` in Eigen): `q ⬝ (0,v) ⬝ q⁻¹`
for a unit quaternion, written out as the standard polynomial formula. -/
def Quat.rot (q : Quat) (v : V3) : V3 :=
  let qv : V3 := ⟨q.x, q.y, q.z⟩
  let t : V3 := V3.smul 2 ⟨qv.y * v.z - qv.z * v.y, qv.z * v.x - qv.x * v.z,
                           qv.x * v.y - qv.y * v.x⟩
  let c : V3 := ⟨qv.y * t.z - qv.z * t.y, qv.z * t.x - qv.x * t.z,
                 qv.x * t.y - qv.y * t.x⟩
  V3.add v (V3.add (V3.smul q.w t) c)

/-- Embedding of `sensor_msgs::Imu`: the fields the node reads. -/
structure ImuSample where
  stamp : ℚ
  gyro  : V3
  acce  : V3
deriving DecidableEq, Repr

/-- Embedding of `nav_msgs::Odometry`: the fields the node reads (pose orientation,
pose position, body-frame linear twist). -/
structure OdomSample where
  stamp : ℚ
  q     : Quat
  pos   : V3
  vel   : V3
deriving DecidableEq, Repr

/-- One `PointOuster`: xyz, relative time `t` in nanoseconds (`uint32_t`),
intensity, reflectivity. -/
structure PointO where
  x : ℚ
  y : ℚ
  z : ℚ
  t : ℕ
  intensity : ℚ
  reflectivity : ℚ
deriving DecidableEq, Repr

/-- A point cloud message: header stamp (sweep start) plus the points. -/
structure Cloud where
  stamp : ℚ
  points : List PointO
deriving DecidableEq, Repr

def dfltImu : ImuSample := ⟨0, V3.zero, V3.zero⟩

/-- Linear interpolation `(1-s)*a + s*b`, exactly the expression
`(1-s)*gyro_tB + s*gyro_tE` in `ExtractImuData`. -/
def lerpV (s : ℚ) (a b : V3) : V3 := V3.add (V3.smul (1 - s) a) (V3.smul s b)

/-- The entry `ExtractImuData` pushes at loop index `i` (one `(ts, gyro, acce)`
triple).  `Nend = imuSeq.size() - 2`; branch `i == 0` interpolates at `tstart`
from samples 0 and 1, branch `i == Nend` interpolates at `tend` from samples
`Nend` and `Nend+1`, anything else copies sample `i`. -/
def extractEntry (tstart tend : ℚ) (imuSeq : List ImuSample) (i : ℕ) :
    ℚ × V3 × V3 :=
  let nend : ℕ := imuSeq.length - 2
  if i = 0 then
    let sB := imuSeq.getD 0 dfltImu
    let sE := imuSeq.getD 1 dfltImu
    let s : ℚ := (tstart - sB.stamp) / (sE.stamp - sB.stamp)
    (tstart, lerpV s sB.gyro sE.gyro, lerpV s sB.acce sE.acce)
  else if i = nend then
    let sB := imuSeq.getD i dfltImu
    let sE := imuSeq.getD (i + 1) dfltImu
    let s : ℚ := (tend - sB.stamp) / (sE.stamp - sB.stamp)
    (tend, lerpV s sB.gyro sE.gyro, lerpV s sB.acce sE.acce)
  else
    let sI := imuSeq.getD i dfltImu
    (sI.stamp, sI.gyro, sI.acce)

/-- Embedding of `ExtractImuData`: the C++ loop runs `i = 0 .. Nend` with
`Nend = imuSeq.size() - 2`, pushing one entry per iteration onto each of
`ts`, `gyro`, `acce` (all three vectors start empty at the call site);
so the output is the list of entries for `i ∈ [0, imuSeq.length - 2]`,
i.e. `imuSeq.length - 1` entries. -/
def ExtractImuData (tstart tend : ℚ) (imuSeq : List ImuSample) :
    List (ℚ × V3 × V3) :=
  (List.range (imuSeq.length - 1)).map (extractEntry tstart tend imuSeq)

/-- The `ts` output vector of `ExtractImuData`. -/
def extractTs (tstart tend : ℚ) (imuSeq : List ImuSample) : List ℚ :=
  (ExtractImuData tstart tend imuSeq).map (fun e => e.1)

/-- The `gyro` output vector of `ExtractImuData`. -/
def extractGyro (tstart tend : ℚ) (imuSeq : List ImuSample) : List V3 :=
  (ExtractImuData tstart tend imuSeq).map (fun e => e.2.1)

/-- The `acce` output vector of `ExtractImuData`. -/
def extractAcce (tstart tend : ℚ) (imuSeq : List ImuSample) : List V3 :=
  (ExtractImuData tstart tend imuSeq).map (fun e => e.2.2)

/-! ## PropagateIMU -/

/-- Fixed gravity constant `grav(9.82, 0, 0)` from `PropagateIMU`. -/
def grav : V3 := ⟨982/100, 0, 0⟩

/-- Fixed gyro-bias constant `bg(-0.022, -0.033, 0.004)` from `PropagateIMU`. -/
def bg : V3 := ⟨-22/1000, -33/1000, 4/1000⟩

/-- Fixed accel-bias constant `ba(0.0, 0, 0.1)` from `PropagateIMU`. -/
def ba : V3 := ⟨0, 0, 1/10⟩

/-- One propagation state `(q, p, v)` as stored in the three output vectors
of `PropagateIMU`. -/
structure PropState where
  q : Quat
  p : V3
  v : V3
deriving DecidableEq, Repr

/-- The body of `PropagateIMU`'s loop: the `ASSIGNMENT BLOCK` in the source
sets `Qn = Qo`, `Vn = Vo`, `Pn = Po` (the block is a placeholder; the
measurement `(tn, gyrn, accn)` is read but unused), so the next state equals
the previous one. -/
def propagateStep (prev : PropState) (_meas : ℚ × V3 × V3) : PropState :=
  prev

/-- Embedding of `PropagateIMU`: pushes the initial state taken from the odometry message
(orientation and position directly; velocity is the body-frame twist rotated
by the orientation), then runs the loop `for i = 1 .. ts.size()-1`, each
iteration pushing `propagateStep` of the previous state. -/
def PropagateIMU (odom : OdomSample) (meas : List (ℚ × V3 × V3)) :
    List PropState :=
  let s0 : PropState := ⟨odom.q, odom.pos, odom.q.rot odom.vel⟩
  (meas.drop 1).scanl propagateStep s0

/-! ## DeskewByImuPropagation -/

/-- Outcome of `DeskewByImuPropagation`: early return on a short IMU
sequence, a failed `ROS_ASSERT` (process abort), or the cloud handed to
`publishCloud`. -/
inductive DeskewResult
  | tooFewImu
  | assertFail
  | published (cloud : List PointO)
deriving DecidableEq, Repr

/-- Embedding of `pcl::transformPointCloud` with the rigid transform `(q, pos)` taken from
the odometry pose (`mytf tf_W_Bstart(*odom)`): coordinates are rotated and
translated, every other field of the point is copied. -/
def transformPoint (q : Quat) (pos : V3) (p : PointO) : PointO :=
  let v := V3.add (q.rot ⟨p.x, p.y, p.z⟩) pos
  { p with x := v.x, y := v.y, z := v.z }

def dfltPoint : PointO := ⟨0, 0, 0, 0, 0, 0⟩

/-- Embedding of `DeskewByImuPropagation`.  In the source the per-point `ASSIGNMENT BLOCK`
leaves `j = -1`, so the `j >= 0` branch never runs and every output point is
the input point transformed into world frame by the start pose
(`cloudSkewedInWorld`), with `intensity`, `t`, `reflectivity` then copied
from the input point.  The guard `ts.size() < 8` returns before anything
else; the two `ROS_ASSERT`s `ts[0] <= tstart` and `tend <= ts[ts.size()-1]`
abort the process when violated. -/
def DeskewByImuPropagation (cloudSkewed : List PointO) (odom : OdomSample)
    (ts : List ℚ) : DeskewResult :=
  if ts.length < 8 then
    .tooFewImu
  else
    let tstart := odom.stamp
    let tend : ℚ := tstart + ((cloudSkewed.getLastD dfltPoint).t : ℚ) / 1000000000
    if ts.getD 0 0 ≤ tstart ∧ tend ≤ ts.getD (ts.length - 1) 0 then
      .published (cloudSkewed.map (fun pi =>
        let po := transformPoint odom.q odom.pos pi
        { po with intensity := pi.intensity, t := pi.t,
                  reflectivity := pi.reflectivity }))
    else
      .assertFail

/-! ## hasData (readiness gate) -/

/-- The two buffers `hasData` reads: the odom/cloud pairing queue `oc_buf`
and the IMU buffer `imu_buf`. -/
structure GateState where
  ocBuf  : List (OdomSample × Cloud)
  imuBuf : List ImuSample
deriving DecidableEq, Repr

/-- What one `hasData` call reports. -/
inductive GateRes
  | notReady
  | staleDropped
  | ready
deriving DecidableEq, Repr

/-- The end time of a sweep: its start stamp plus the last point's relative
time in seconds (`cloudMsg->header.stamp.toSec() + cloud->points.back().t/1.0e9`). -/
def sweepEndTime (c : Cloud) : ℚ :=
  c.stamp + ((c.points.getLastD dfltPoint).t : ℚ) / 1000000000

/-- Embedding of `hasData`: empty pairing queue or empty IMU buffer report not-ready; a
front pair whose odom stamp is older than the IMU front is popped (stale);
then the lookahead check compares `oc_buf.front().second`'s header stamp —
the CLOUD message's stamp, i.e. the sweep's start — plus `0.125` against the
IMU back stamp, reporting not-ready (buffers untouched) when
`cloud.stamp + 0.125 > imu_back`.  Returns the report and the resulting
buffer state. -/
def hasData (st : GateState) : GateRes × GateState :=
  match st.ocBuf with
  | [] => (.notReady, st)
  | (odom, cloud) :: rest =>
    match st.imuBuf with
    | [] => (.notReady, st)
    | imuFront :: imuRest =>
      if odom.stamp < imuFront.stamp then
        (.staleDropped, { st with ocBuf := rest })
      else if cloud.stamp + 1/8 > ((imuFront :: imuRest).getLastD dfltImu).stamp then
        (.notReady, st)
      else
        (.ready, st)

/-! ## Odometry/cloud pairing and sweep staging -/

/-- The prune loop of `matchOdomCloud`:
`while (2 <= odom_buf.size() && msgTimestamp(odom_buf[1]) <= t) pop_front()`. -/
def pruneOdom (t : ℚ) : List OdomSample → List OdomSample
  | [] => []
  | [p] => [p]
  | p0 :: p1 :: rest =>
    if p1.stamp ≤ t then pruneOdom t (p1 :: rest) else p0 :: p1 :: rest

/-- The pairing decision of `matchOdomCloud`: prune, then emit the front
odometry sample iff the first two remaining samples bracket `t`
(`odom_buf[0] <= t && t <= odom_buf[1]`).  Returns the emitted sample (if
any) and the pruned buffer. -/
def matchOdom (t : ℚ) (buf : List OdomSample) :
    Option OdomSample × List OdomSample :=
  let b := pruneOdom t buf
  match b with
  | p0 :: p1 :: _ =>
    if p0.stamp ≤ t ∧ t ≤ p1.stamp then (some p0, b) else (none, b)
  | _ => (none, b)

/-- Global state touched by the subscription callbacks: the odometry buffer,
the single-slot cloud holding area, the paired queue `oc_buf`, the static
`skip` counter of `odomCloudCallback` (starts at 10), a count of
"Throwing away a pointcloud" warnings, and whether a `ROS_ASSERT` aborted. -/
structure NodeState where
  odomBuf   : List OdomSample
  cloudHold : Option Cloud
  ocBuf     : List (OdomSample × Cloud)
  skip      : ℕ
  dropWarns : ℕ
  aborted   : Bool
deriving DecidableEq, Repr

/-- Embedding of `odomCloudCallback`: decrements the static skip counter and returns while
it is positive; otherwise asserts `odom.stamp ≤ cloud.stamp` (process abort
on failure) and appends the pair to `oc_buf`. -/
def odomCloudCallback (odom : OdomSample) (cloud : Cloud) (s : NodeState) :
    NodeState :=
  if 0 < s.skip then
    { s with skip := s.skip - 1 }
  else if odom.stamp ≤ cloud.stamp then
    { s with ocBuf := s.ocBuf ++ [(odom, cloud)] }
  else
    { s with aborted := true }

/-- Embedding of `matchOdomCloud`: reads the held cloud's stamp, prunes the odometry
buffer, and on a bracket emits `(odom_buf.front(), cloud_hold)` through
`odomCloudCallback` and clears the holding slot.  A no-op when the slot is
empty (the function is only called with a held cloud). -/
def matchOdomCloud (s : NodeState) : NodeState :=
  match s.cloudHold with
  | none => s
  | some c =>
    match matchOdom c.stamp s.odomBuf with
    | (some p0, b) =>
      odomCloudCallback p0 c { s with odomBuf := b, cloudHold := none }
    | (none, b) => { s with odomBuf := b }

/-- Embedding of `cloudCallback`: warns ("Throwing away a pointcloud") iff a cloud is
already held, overwrites the holding slot with the new cloud, and attempts
pairing when the odometry buffer is non-empty. -/
def cloudCallback (c : Cloud) (s : NodeState) : NodeState :=
  let warns := if s.cloudHold.isSome then s.dropWarns + 1 else s.dropWarns
  let s1 : NodeState := { s with cloudHold := some c, dropWarns := warns }
  if s1.odomBuf.isEmpty then s1 else matchOdomCloud s1

/-- Embedding of `odomCallback`: appends the odometry sample and attempts pairing when a
cloud is held. -/
def odomCallback (o : OdomSample) (s : NodeState) : NodeState :=
  let s1 : NodeState := { s with odomBuf := s.odomBuf ++ [o] }
  if s1.cloudHold.isSome then matchOdomCloud s1 else s1

/-! ## processData (one iteration of the consumer loop, after popping) -/

/-- The IMU prune loop in `processData`:
`while (2 <= imu_buf.size() && msgTimestamp(imu_buf[1]) <= start_time) pop_front()`. -/
def pruneImu (t : ℚ) : List ImuSample → List ImuSample
  | [] => []
  | [p] => [p]
  | p0 :: p1 :: rest =>
    if p1.stamp ≤ t then pruneImu t (p1 :: rest) else p0 :: p1 :: rest

/-- The copy loop in `processData`: push each buffered sample, breaking
right after pushing the first sample with `end_time < stamp`. -/
def takeThrough (endTime : ℚ) : List ImuSample → List ImuSample
  | [] => []
  | a :: rest => if endTime < a.stamp then [a] else a :: takeThrough endTime rest

/-- Outcome of one `processData` iteration on a popped pair. -/
inductive ProcOut
  | skippedNoImu
  | orderAbort
  | done (ext : List (ℚ × V3 × V3)) (traj : List PropState) (dsk : DeskewResult)
deriving DecidableEq, Repr

/-- One iteration of `processData` after the pop: computes
`start_time = odom.stamp`, `end_time = cloudMsg.stamp + points.back().t/1e9`,
builds `imuSeq` by pruning and copying, skips (warn + `continue`) when
`imuSeq.size() < 2` or its last stamp is before `start_time`, asserts strict
timestamp ordering of `imuSeq` (`ROS_ASSERT`, process abort), then runs
`ExtractImuData`, `PropagateIMU` and `DeskewByImuPropagation` on the
body-frame cloud `cloud` (whose points carry the same `t` offsets as the
message). -/
def processOne (odom : OdomSample) (cloudMsg : Cloud) (cloud : List PointO)
    (imuBuf : List ImuSample) : ProcOut :=
  let startTime := odom.stamp
  let endTime : ℚ := cloudMsg.stamp + ((cloud.getLastD dfltPoint).t : ℚ) / 1000000000
  let imuSeq := takeThrough endTime (pruneImu startTime imuBuf)
  if imuSeq.length < 2 ∨ (imuSeq.getLastD dfltImu).stamp < startTime then
    .skippedNoImu
  else if ¬ List.Chain' (fun a b => a.stamp < b.stamp) imuSeq then
    .orderAbort
  else
    let ext := ExtractImuData startTime endTime imuSeq
    let traj := PropagateIMU odom ext
    let dsk := DeskewByImuPropagation cloud odom (extractTs startTime endTime imuSeq)
    .done ext traj dsk

/-! ## General lemmas about the embedding -/

theorem extractImuData_length (tstart tend : ℚ) (seq : List ImuSample) :
    (ExtractImuData tstart tend seq).length = seq.length - 1 := by
  simp [ExtractImuData]

theorem extractImuData_getElem? (tstart tend : ℚ) (seq : List ImuSample)
    (i : ℕ) (hi : i < seq.length - 1) :
    (ExtractImuData tstart tend seq)[i]? =
      some (extractEntry tstart tend seq i) := by
  simp [ExtractImuData, List.getElem?_map, List.getElem?_range, hi]

/-! ## Claims -/

/-- C10: for every input inertial sequence with at least 2 samples,
`ExtractImuData` appends exactly `imuSeq.size() - 1` entries to each of
`ts`, `gyro`, `acce`, so the three output vectors have equal length; with
exactly 2 samples the output is a single entry at `tstart` and contains no
entry at `tend`. -/
theorem extract_output_counts (tstart tend : ℚ) (seq : List ImuSample)
    (h2 : 2 ≤ seq.length) (hne : tstart ≠ tend) :
    (extractTs tstart tend seq).length = seq.length - 1 ∧
    (extractGyro tstart tend seq).length = seq.length - 1 ∧
    (extractAcce tstart tend seq).length = seq.length - 1 ∧
    (seq.length = 2 →
      extractTs tstart tend seq = [tstart] ∧
      tend ∉ extractTs tstart tend seq) := by
  refine ⟨by simp [extractTs, ExtractImuData], by simp [extractGyro, ExtractImuData],
          by simp [extractAcce, ExtractImuData], fun hlen => ?_⟩
  have hts : extractTs tstart tend seq = [tstart] := by
    simp [extractTs, ExtractImuData, hlen, List.range_succ, extractEntry]
  exact ⟨hts, by simp [hts, Ne.symm hne]⟩

/-- Witness for C10 at a concrete two-sample input. -/
theorem extract_output_counts_witness :
    2 ≤ ([⟨0, V3.zero, V3.zero⟩, ⟨10, V3.zero, V3.zero⟩] : List ImuSample).length ∧
    (1 : ℚ) ≠ 9 ∧
    ((extractTs 1 9 [⟨0, V3.zero, V3.zero⟩, ⟨10, V3.zero, V3.zero⟩]).length =
        ([⟨0, V3.zero, V3.zero⟩, ⟨10, V3.zero, V3.zero⟩] : List ImuSample).length - 1 ∧
      (extractGyro 1 9 [⟨0, V3.zero, V3.zero⟩, ⟨10, V3.zero, V3.zero⟩]).length =
        ([⟨0, V3.zero, V3.zero⟩, ⟨10, V3.zero, V3.zero⟩] : List ImuSample).length - 1 ∧
      (extractAcce 1 9 [⟨0, V3.zero, V3.zero⟩, ⟨10, V3.zero, V3.zero⟩]).length =
        ([⟨0, V3.zero, V3.zero⟩, ⟨10, V3.zero, V3.zero⟩] : List ImuSample).length - 1 ∧
      (([⟨0, V3.zero, V3.zero⟩, ⟨10, V3.zero, V3.zero⟩] : List ImuSample).length = 2 →
        extractTs 1 9 [⟨0, V3.zero, V3.zero⟩, ⟨10, V3.zero, V3.zero⟩] = [1] ∧
        (9 : ℚ) ∉ extractTs 1 9 [⟨0, V3.zero, V3.zero⟩, ⟨10, V3.zero, V3.zero⟩])) :=
  ⟨by decide, by decide,
   extract_output_counts 1 9 [⟨0, V3.zero, V3.zero⟩, ⟨10, V3.zero, V3.zero⟩]
     (by decide) (by decide)⟩

/-- The boundary entry `ExtractImuData` pushes for a boundary time `t`
interpolated from the bracket `(sB, sE)`: fraction
`s = (t - tB)/(tE - tB)`, values `(1-s)*vB + s*vE`. -/
def boundaryEntry (t : ℚ) (sB sE : ImuSample) : ℚ × V3 × V3 :=
  (t, lerpV ((t - sB.stamp) / (sE.stamp - sB.stamp)) sB.gyro sE.gyro,
      lerpV ((t - sB.stamp) / (sE.stamp - sB.stamp)) sB.acce sE.acce)

theorem lerpV_zero (a b : V3) : lerpV 0 a b = a := by
  cases a; cases b; simp [lerpV, V3.add, V3.smul]

theorem lerpV_one (a b : V3) : lerpV 1 a b = b := by
  cases a; cases b; simp [lerpV, V3.add, V3.smul]

/-- C4 (amended: requires at least 3 samples; with exactly 2 samples the
output is the single entry at `tstart` and has no entry at `tend`): for a
strictly increasing sequence whose first two samples bracket `tstart` and
whose last two samples bracket `tend`, the extractor's first entry is
exactly at `tstart` and its last entry exactly at `tend`, with gyro/accel
linearly interpolated from the respective bracket with fraction
`s = (t - tB)/(tE - tB)`; when `tstart` equals a bracketing sample's
timestamp the interpolation reduces to that sample's values. -/
theorem extract_boundary (tstart tend : ℚ) (seq : List ImuSample)
    (h3 : 3 ≤ seq.length)
    (hpw : List.Pairwise (fun a b : ImuSample => a.stamp < b.stamp) seq)
    (hb0 : (seq.getD 0 dfltImu).stamp ≤ tstart)
    (hb1 : tstart ≤ (seq.getD 1 dfltImu).stamp)
    (he0 : (seq.getD (seq.length - 2) dfltImu).stamp ≤ tend)
    (he1 : tend ≤ (seq.getD (seq.length - 1) dfltImu).stamp) :
    (ExtractImuData tstart tend seq).head? =
      some (boundaryEntry tstart (seq.getD 0 dfltImu) (seq.getD 1 dfltImu)) ∧
    (ExtractImuData tstart tend seq).getLast? =
      some (boundaryEntry tend (seq.getD (seq.length - 2) dfltImu)
        (seq.getD (seq.length - 1) dfltImu)) ∧
    (tstart = (seq.getD 0 dfltImu).stamp →
      boundaryEntry tstart (seq.getD 0 dfltImu) (seq.getD 1 dfltImu) =
        (tstart, (seq.getD 0 dfltImu).gyro, (seq.getD 0 dfltImu).acce)) ∧
    (tstart = (seq.getD 1 dfltImu).stamp →
      boundaryEntry tstart (seq.getD 0 dfltImu) (seq.getD 1 dfltImu) =
        (tstart, (seq.getD 1 dfltImu).gyro, (seq.getD 1 dfltImu).acce)) := by
  have hne : (seq.getD 0 dfltImu).stamp < (seq.getD 1 dfltImu).stamp := by
    have h0 : 0 < seq.length := by omega
    have h1 : 1 < seq.length := by omega
    have := List.pairwise_iff_getElem.mp hpw 0 1 h0 h1 (by omega)
    rwa [List.getD_eq_getElem seq dfltImu h0, List.getD_eq_getElem seq dfltImu h1]
  refine ⟨?_, ?_, ?_, ?_⟩
  · rw [List.head?_eq_getElem?,
      extractImuData_getElem? tstart tend seq 0 (by omega)]
    simp [extractEntry, boundaryEntry]
  · rw [List.getLast?_eq_getElem?, extractImuData_length,
      extractImuData_getElem? tstart tend seq (seq.length - 1 - 1) (by omega)]
    have hieq : seq.length - 1 - 1 = seq.length - 2 := by omega
    have hsucc : seq.length - 2 + 1 = seq.length - 1 := by omega
    rw [hieq]
    simp only [extractEntry, boundaryEntry, hsucc]
    rw [if_neg (by omega : ¬ seq.length - 2 = 0)]
    simp
  · intro h
    have hs : (tstart - (seq.getD 0 dfltImu).stamp) /
        ((seq.getD 1 dfltImu).stamp - (seq.getD 0 dfltImu).stamp) = 0 := by
      rw [h]; simp
    simp only [boundaryEntry]
    rw [hs, lerpV_zero, lerpV_zero]
  · intro h
    have hs : (tstart - (seq.getD 0 dfltImu).stamp) /
        ((seq.getD 1 dfltImu).stamp - (seq.getD 0 dfltImu).stamp) = 1 := by
      rw [h]
      exact div_self (sub_ne_zero.mpr (ne_of_gt hne))
    simp only [boundaryEntry]
    rw [hs, lerpV_one, lerpV_one]

/-- Witness for C4 (amended) at a concrete three-sample input. -/
theorem extract_boundary_witness :
    (ExtractImuData 1 9
        [⟨0, ⟨1, 1, 1⟩, ⟨5, 5, 5⟩⟩, ⟨2, ⟨3, 3, 3⟩, ⟨7, 7, 7⟩⟩,
         ⟨10, ⟨4, 4, 4⟩, ⟨8, 8, 8⟩⟩]).head? =
      some (boundaryEntry 1 ⟨0, ⟨1, 1, 1⟩, ⟨5, 5, 5⟩⟩ ⟨2, ⟨3, 3, 3⟩, ⟨7, 7, 7⟩⟩) ∧
    (ExtractImuData 1 9
        [⟨0, ⟨1, 1, 1⟩, ⟨5, 5, 5⟩⟩, ⟨2, ⟨3, 3, 3⟩, ⟨7, 7, 7⟩⟩,
         ⟨10, ⟨4, 4, 4⟩, ⟨8, 8, 8⟩⟩]).getLast? =
      some (boundaryEntry 9 ⟨2, ⟨3, 3, 3⟩, ⟨7, 7, 7⟩⟩ ⟨10, ⟨4, 4, 4⟩, ⟨8, 8, 8⟩⟩) := by
  have h := extract_boundary 1 9
    [⟨0, ⟨1, 1, 1⟩, ⟨5, 5, 5⟩⟩, ⟨2, ⟨3, 3, 3⟩, ⟨7, 7, 7⟩⟩, ⟨10, ⟨4, 4, 4⟩, ⟨8, 8, 8⟩⟩]
    (by decide) (by decide) (by decide) (by decide) (by decide) (by decide)
  exact ⟨h.1, h.2.1⟩

/-- C4 counterexample: a strictly increasing two-sample sequence covering
`[1, 9]` for which the extractor's last entry is at `tstart = 1`, not
`tend = 9`. -/
theorem extract_boundary_cex :
    List.Pairwise (fun a b : ImuSample => a.stamp < b.stamp)
      [⟨0, V3.zero, V3.zero⟩, ⟨10, V3.zero, V3.zero⟩] ∧
    (([⟨0, V3.zero, V3.zero⟩, ⟨10, V3.zero, V3.zero⟩] :
        List ImuSample).getD 0 dfltImu).stamp ≤ 1 ∧
    (9 : ℚ) ≤ (([⟨0, V3.zero, V3.zero⟩, ⟨10, V3.zero, V3.zero⟩] :
        List ImuSample).getD 1 dfltImu).stamp ∧
    (extractTs 1 9 [⟨0, V3.zero, V3.zero⟩, ⟨10, V3.zero, V3.zero⟩]).getLast? =
      some 1 ∧
    (1 : ℚ) ≠ 9 := by decide

/-- C3 (amended: the input's next-to-last sample is excluded — the loop's
`i == Nend` branch replaces it with the interpolated entry at `tend`): for a
strictly increasing sequence covering `[tstart, tend]`, every original
sample with timestamp strictly between `tstart` and `tend` other than the
sample at index `length - 2` appears unchanged, at its own index (hence in
original order), in the extractor's output. -/
theorem extract_interior_preserved (tstart tend : ℚ) (seq : List ImuSample)
    (hpw : List.Pairwise (fun a b : ImuSample => a.stamp < b.stamp) seq)
    (i : ℕ) (hi : i < seq.length)
    (hcov0 : (seq.getD 0 dfltImu).stamp ≤ tstart)
    (hcovE : tend ≤ (seq.getD (seq.length - 1) dfltImu).stamp)
    (hgt : tstart < (seq.getD i dfltImu).stamp)
    (hlt : (seq.getD i dfltImu).stamp < tend)
    (hpen : i ≠ seq.length - 2) :
    (ExtractImuData tstart tend seq)[i]? =
      some ((seq.getD i dfltImu).stamp, (seq.getD i dfltImu).gyro,
        (seq.getD i dfltImu).acce) := by
  have hne0 : i ≠ 0 := by
    intro h; rw [h] at hgt; exact absurd hcov0 (not_le.mpr hgt)
  have hneL : i ≠ seq.length - 1 := by
    intro h; rw [h] at hlt; exact absurd hcovE (not_le.mpr hlt)
  have hiR : i < seq.length - 1 := by omega
  rw [extractImuData_getElem? tstart tend seq i hiR]
  simp only [extractEntry]
  rw [if_neg hne0, if_neg hpen]

/-- Witness for C3 (amended) at a concrete input: the sample at time 4
(index 2 of 7, strictly inside `(0, 10)`) is copied unchanged. -/
theorem extract_interior_preserved_witness :
    (ExtractImuData 0 10
        [⟨-1, ⟨-1, 0, 0⟩, ⟨-1, 1, 0⟩⟩, ⟨2, ⟨2, 0, 0⟩, ⟨2, 1, 0⟩⟩,
         ⟨4, ⟨4, 0, 0⟩, ⟨4, 1, 0⟩⟩, ⟨6, ⟨6, 0, 0⟩, ⟨6, 1, 0⟩⟩,
         ⟨8, ⟨8, 0, 0⟩, ⟨8, 1, 0⟩⟩, ⟨9, ⟨9, 0, 0⟩, ⟨9, 1, 0⟩⟩,
         ⟨11, ⟨11, 0, 0⟩, ⟨11, 1, 0⟩⟩])[2]? =
      some (4, ⟨4, 0, 0⟩, ⟨4, 1, 0⟩) :=
  extract_interior_preserved 0 10
    [⟨-1, ⟨-1, 0, 0⟩, ⟨-1, 1, 0⟩⟩, ⟨2, ⟨2, 0, 0⟩, ⟨2, 1, 0⟩⟩,
     ⟨4, ⟨4, 0, 0⟩, ⟨4, 1, 0⟩⟩, ⟨6, ⟨6, 0, 0⟩, ⟨6, 1, 0⟩⟩,
     ⟨8, ⟨8, 0, 0⟩, ⟨8, 1, 0⟩⟩, ⟨9, ⟨9, 0, 0⟩, ⟨9, 1, 0⟩⟩,
     ⟨11, ⟨11, 0, 0⟩, ⟨11, 1, 0⟩⟩]
    (by decide) 2 (by decide) (by decide) (by decide) (by decide) (by decide)
    (by decide)

/-- C3 counterexample: in the strictly increasing sequence with stamps
`[-1, 2, 4, 6, 8, 9, 11]` covering `[0, 10]`, the original sample at time 9
— strictly between `tstart = 0` and `tend = 10` — appears nowhere in the
extractor's output (no output entry even carries its timestamp): the
`i == Nend` branch replaced it with the interpolated entry at `tend`. -/
theorem extract_interior_preserved_cex :
    List.Pairwise (fun a b : ImuSample => a.stamp < b.stamp)
      [⟨-1, ⟨-1, 0, 0⟩, ⟨-1, 1, 0⟩⟩, ⟨2, ⟨2, 0, 0⟩, ⟨2, 1, 0⟩⟩,
       ⟨4, ⟨4, 0, 0⟩, ⟨4, 1, 0⟩⟩, ⟨6, ⟨6, 0, 0⟩, ⟨6, 1, 0⟩⟩,
       ⟨8, ⟨8, 0, 0⟩, ⟨8, 1, 0⟩⟩, ⟨9, ⟨9, 0, 0⟩, ⟨9, 1, 0⟩⟩,
       ⟨11, ⟨11, 0, 0⟩, ⟨11, 1, 0⟩⟩] ∧
    (([⟨-1, ⟨-1, 0, 0⟩, ⟨-1, 1, 0⟩⟩, ⟨2, ⟨2, 0, 0⟩, ⟨2, 1, 0⟩⟩,
       ⟨4, ⟨4, 0, 0⟩, ⟨4, 1, 0⟩⟩, ⟨6, ⟨6, 0, 0⟩, ⟨6, 1, 0⟩⟩,
       ⟨8, ⟨8, 0, 0⟩, ⟨8, 1, 0⟩⟩, ⟨9, ⟨9, 0, 0⟩, ⟨9, 1, 0⟩⟩,
       ⟨11, ⟨11, 0, 0⟩, ⟨11, 1, 0⟩⟩] : List ImuSample).getD 0 dfltImu).stamp ≤ 0 ∧
    (10 : ℚ) ≤ (([⟨-1, ⟨-1, 0, 0⟩, ⟨-1, 1, 0⟩⟩, ⟨2, ⟨2, 0, 0⟩, ⟨2, 1, 0⟩⟩,
       ⟨4, ⟨4, 0, 0⟩, ⟨4, 1, 0⟩⟩, ⟨6, ⟨6, 0, 0⟩, ⟨6, 1, 0⟩⟩,
       ⟨8, ⟨8, 0, 0⟩, ⟨8, 1, 0⟩⟩, ⟨9, ⟨9, 0, 0⟩, ⟨9, 1, 0⟩⟩,
       ⟨11, ⟨11, 0, 0⟩, ⟨11, 1, 0⟩⟩] : List ImuSample).getD 6 dfltImu).stamp ∧
    (0 : ℚ) < 9 ∧ (9 : ℚ) < 10 ∧
    (9 : ℚ) ∉ extractTs 0 10
      [⟨-1, ⟨-1, 0, 0⟩, ⟨-1, 1, 0⟩⟩, ⟨2, ⟨2, 0, 0⟩, ⟨2, 1, 0⟩⟩,
       ⟨4, ⟨4, 0, 0⟩, ⟨4, 1, 0⟩⟩, ⟨6, ⟨6, 0, 0⟩, ⟨6, 1, 0⟩⟩,
       ⟨8, ⟨8, 0, 0⟩, ⟨8, 1, 0⟩⟩, ⟨9, ⟨9, 0, 0⟩, ⟨9, 1, 0⟩⟩,
       ⟨11, ⟨11, 0, 0⟩, ⟨11, 1, 0⟩⟩] := by decide

/-- C1 (code bug, evaluated at the failing input): the `ASSIGNMENT BLOCK`
of `PropagateIMU` keeps `(Qn, Vn, Pn) = (Qo, Vo, Po)`, contradicting its own
instruction ("Propagate the poses by updating Qn, Vn, Pn below"), so at a
concrete input with nonzero corrected angular rate `gyro − bg`, nonzero net
specific force `q⊙(acce − ba) + grav`, and nonzero initial world velocity,
every trajectory entry still equals the initial state — consecutive entries
never differ. -/
theorem propagateIMU_stub_no_update :
    V3.sub ⟨1, 2, 3⟩ bg ≠ V3.zero ∧
    V3.add ((⟨1, 0, 0, 0⟩ : Quat).rot (V3.sub ⟨1, 1, 1⟩ ba)) grav ≠ V3.zero ∧
    (⟨1, 0, 0, 0⟩ : Quat).rot (⟨4, 5, 6⟩ : V3) ≠ V3.zero ∧
    PropagateIMU ⟨0, ⟨1, 0, 0, 0⟩, ⟨1, 2, 3⟩, ⟨4, 5, 6⟩⟩
        [(0, ⟨1, 2, 3⟩, ⟨1, 1, 1⟩), (1/100, ⟨1, 2, 3⟩, ⟨1, 1, 1⟩)] =
      [⟨⟨1, 0, 0, 0⟩, ⟨1, 2, 3⟩, ⟨4, 5, 6⟩⟩,
       ⟨⟨1, 0, 0, 0⟩, ⟨1, 2, 3⟩, ⟨4, 5, 6⟩⟩] := by
  refine ⟨?_, ?_, ?_, ?_⟩ <;>
    norm_num [V3.sub, V3.add, V3.smul, V3.zero, bg, ba, grav, Quat.rot,
      PropagateIMU, propagateStep]

def dfltOdom : OdomSample := ⟨0, ⟨1, 0, 0, 0⟩, V3.zero, V3.zero⟩

def dfltCloud : Cloud := ⟨0, []⟩

/-- C2 (amended: the lookahead margin is measured from the sweep's START
timestamp — the cloud message's header stamp — not from the sweep's end
time, and the comparison is `≥`, not strict): the gate reports a pair
processable only if both buffers are non-empty and the IMU back stamp is at
least `cloud.stamp + 0.125`, with the buffers left untouched; and whenever
both buffers are non-empty, the pair is not stale, and that lookahead check
fails, the gate reports not-ready with the state unchanged — no pair is
dropped, so the loop can retry. -/
theorem hasData_margin (st : GateState) :
    ((hasData st).1 = .ready →
      st.ocBuf ≠ [] ∧ st.imuBuf ≠ [] ∧
      ((st.ocBuf.headD (dfltOdom, dfltCloud)).2).stamp + 1/8 ≤
        (st.imuBuf.getLastD dfltImu).stamp ∧
      (hasData st).2 = st) ∧
    (st.ocBuf ≠ [] → st.imuBuf ≠ [] →
      ¬ ((st.ocBuf.headD (dfltOdom, dfltCloud)).1).stamp <
        (st.imuBuf.headD dfltImu).stamp →
      ((st.ocBuf.headD (dfltOdom, dfltCloud)).2).stamp + 1/8 >
        (st.imuBuf.getLastD dfltImu).stamp →
      hasData st = (.notReady, st)) := by
  rcases st with ⟨oc, imu⟩
  rcases oc with _ | ⟨⟨odom, cloud⟩, rest⟩
  · exact ⟨fun hr => by simp [hasData] at hr, fun h => absurd rfl h⟩
  · rcases imu with _ | ⟨f, ir⟩
    · exact ⟨fun hr => by simp [hasData] at hr, fun _ h => absurd rfl h⟩
    · constructor
      · intro hr
        simp only [hasData] at hr
        split_ifs at hr with h1 h2
        exact ⟨by simp, by simp, by simpa using not_lt.mp h2,
          by simp only [hasData]; rw [if_neg h1, if_neg h2]⟩
      · intro _ _ h3 h4
        have h1 : ¬ odom.stamp < f.stamp := by simpa using h3
        have h4' : cloud.stamp + 1/8 > ((f :: ir).getLastD dfltImu).stamp := by
          simpa using h4
        simp only [hasData]
        rw [if_neg h1, if_pos h4']

/-- Witness for C2 (amended) at a concrete ready state. -/
theorem hasData_margin_witness :
    (hasData ⟨[(⟨1, ⟨1, 0, 0, 0⟩, V3.zero, V3.zero⟩,
        ⟨1, [⟨1, 2, 3, 50000000, 5, 6⟩]⟩)],
      [⟨1, V3.zero, V3.zero⟩, ⟨2, V3.zero, V3.zero⟩]⟩).1 = GateRes.ready ∧
    (([(⟨1, ⟨1, 0, 0, 0⟩, V3.zero, V3.zero⟩, ⟨1, [⟨1, 2, 3, 50000000, 5, 6⟩]⟩)] :
        List (OdomSample × Cloud)).headD (dfltOdom, dfltCloud)).2.stamp + 1/8 ≤
      (([⟨1, V3.zero, V3.zero⟩, ⟨2, V3.zero, V3.zero⟩] :
        List ImuSample).getLastD dfltImu).stamp := by
  have hready : (hasData ⟨[(⟨1, ⟨1, 0, 0, 0⟩, V3.zero, V3.zero⟩,
      ⟨1, [⟨1, 2, 3, 50000000, 5, 6⟩]⟩)],
    [⟨1, V3.zero, V3.zero⟩, ⟨2, V3.zero, V3.zero⟩]⟩).1 = GateRes.ready := by
    norm_num [hasData]
  have h := (hasData_margin ⟨[(⟨1, ⟨1, 0, 0, 0⟩, V3.zero, V3.zero⟩,
      ⟨1, [⟨1, 2, 3, 50000000, 5, 6⟩]⟩)],
    [⟨1, V3.zero, V3.zero⟩, ⟨2, V3.zero, V3.zero⟩]⟩).1 hready
  exact ⟨hready, h.2.2.1⟩

/-- C2 counterexample: a state the gate reports ready although the IMU back
stamp (`0.15`) does not exceed the sweep's end time plus the margin — here
it does not even reach the sweep's end time (`0.2`): the code compares the
margin against the cloud header stamp (the sweep's START), `0 + 0.125`. -/
theorem hasData_margin_cex :
    (hasData ⟨[(⟨0, ⟨1, 0, 0, 0⟩, V3.zero, V3.zero⟩,
        ⟨0, [⟨1, 2, 3, 200000000, 5, 6⟩]⟩)],
      [⟨0, V3.zero, V3.zero⟩, ⟨3/20, V3.zero, V3.zero⟩]⟩).1 = GateRes.ready ∧
    (([⟨0, V3.zero, V3.zero⟩, ⟨3/20, V3.zero, V3.zero⟩] :
        List ImuSample).getLastD dfltImu).stamp <
      sweepEndTime ⟨0, [⟨1, 2, 3, 200000000, 5, 6⟩]⟩ := by
  constructor
  · norm_num [hasData]
  · norm_num [sweepEndTime, dfltPoint]

def odomC5 : OdomSample := ⟨0, ⟨1, 0, 0, 0⟩, V3.zero, V3.zero⟩

def cloudC5 : Cloud := ⟨0, [⟨1, 2, 3, 200000000, 5, 6⟩]⟩

def ptsC5 : List PointO := [⟨1, 2, 3, 200000000, 5, 6⟩]

def imuBufC5 : List ImuSample :=
  [⟨-1/10, ⟨1, 0, 0⟩, ⟨0, 0, 1⟩⟩, ⟨1/20, ⟨1, 0, 0⟩, ⟨0, 0, 1⟩⟩,
   ⟨1/10, ⟨1, 0, 0⟩, ⟨0, 0, 1⟩⟩, ⟨3/20, ⟨1, 0, 0⟩, ⟨0, 0, 1⟩⟩,
   ⟨1/4, ⟨1, 0, 0⟩, ⟨0, 0, 1⟩⟩]

def extC5 : List (ℚ × V3 × V3) := ExtractImuData 0 (1/5) imuBufC5

def trajC5 : List PropState := PropagateIMU odomC5 extC5

/-- C5 (amended: the `< 8` guard sits at the start of
`DeskewByImuPropagation`, not in the extractor, and counts resampled
entries: when the resampled sequence has fewer than 8 entries — i.e. fewer
than 9 raw samples in the window — the deskew step returns early with a
warning and no deskewed cloud, the sweep being skipped non-fatally, while
extraction and propagation have already run and produced their outputs). -/
theorem processOne_sparse_skips_deskew (odom : OdomSample) (cm : Cloud)
    (cl : List PointO) (buf : List ImuSample)
    (ext : List (ℚ × V3 × V3)) (traj : List PropState) (dsk : DeskewResult)
    (h : processOne odom cm cl buf = .done ext traj dsk)
    (hlen : ext.length < 8) :
    dsk = DeskewResult.tooFewImu ∧ traj.length = ext.length ∧
      1 ≤ ext.length := by
  unfold processOne at h
  set imuSeq := takeThrough
    (cm.stamp + ((cl.getLastD dfltPoint).t : ℚ) / 1000000000)
    (pruneImu odom.stamp buf) with hseq
  by_cases hg1 : imuSeq.length < 2 ∨ (imuSeq.getLastD dfltImu).stamp < odom.stamp
  · rw [if_pos hg1] at h; exact absurd h (by simp)
  · rw [if_neg hg1] at h
    by_cases hg2 : ¬ List.Chain' (fun a b => a.stamp < b.stamp) imuSeq
    · rw [if_pos hg2] at h; exact absurd h (by simp)
    · rw [if_neg hg2] at h
      obtain ⟨hext, htraj, hdsk⟩ : ExtractImuData odom.stamp
          (cm.stamp + ((cl.getLastD dfltPoint).t : ℚ) / 1000000000) imuSeq = ext ∧
          PropagateIMU odom (ExtractImuData odom.stamp
            (cm.stamp + ((cl.getLastD dfltPoint).t : ℚ) / 1000000000) imuSeq) = traj ∧
          DeskewByImuPropagation cl odom (extractTs odom.stamp
            (cm.stamp + ((cl.getLastD dfltPoint).t : ℚ) / 1000000000) imuSeq) = dsk := by
        injection h with h1 h2 h3
        exact ⟨h1, h2, h3⟩
      have hext_len : 1 ≤ ext.length := by
        rw [← hext, extractImuData_length]
        omega
      refine ⟨?_, ?_, hext_len⟩
      · have hts : (extractTs odom.stamp
            (cm.stamp + ((cl.getLastD dfltPoint).t : ℚ) / 1000000000) imuSeq).length < 8 := by
          rw [extractTs, List.length_map, hext]; exact hlen
        rw [← hdsk, DeskewByImuPropagation, if_pos hts]
      · rw [← htraj, ← hext, PropagateIMU]
        simp only [List.length_scanl, List.length_drop]
        rw [hext]
        omega

/-- Witness for C5 (amended) at a concrete five-sample input. -/
theorem processOne_sparse_skips_deskew_witness :
    processOne odomC5 cloudC5 ptsC5 imuBufC5 =
      ProcOut.done extC5 trajC5 DeskewResult.tooFewImu ∧
    trajC5.length = extC5.length ∧ 1 ≤ extC5.length := by
  have hp : processOne odomC5 cloudC5 ptsC5 imuBufC5 =
      ProcOut.done extC5 trajC5 DeskewResult.tooFewImu := by
    norm_num [processOne, takeThrough, pruneImu, imuBufC5, odomC5, cloudC5,
      ptsC5, extC5, trajC5, dfltPoint, dfltImu, List.chain'_cons,
      DeskewByImuPropagation, extractTs, extractImuData_length]
  have hlen : extC5.length < 8 := by
    simp [extC5, extractImuData_length, imuBufC5]
  have h := processOne_sparse_skips_deskew odomC5 cloudC5 ptsC5 imuBufC5
    extC5 trajC5 DeskewResult.tooFewImu hp hlen
  exact ⟨hp, h.2.1, h.2.2⟩

/-- C5 counterexample: with only five raw samples in the window (fewer than
8), the pipeline still produces a four-entry resampled sequence and a
four-entry propagated trajectory — extraction is NOT aborted; only the
deskew step returns `tooFewImu`. -/
theorem deskew_density_cex :
    imuBufC5.length < 8 ∧
    processOne odomC5 cloudC5 ptsC5 imuBufC5 =
      ProcOut.done extC5 trajC5 DeskewResult.tooFewImu ∧
    extC5.length = 4 ∧ trajC5.length = 4 := by
  refine ⟨by simp [imuBufC5], ?_, ?_, ?_⟩
  · norm_num [processOne, takeThrough, pruneImu, imuBufC5, odomC5, cloudC5,
      ptsC5, extC5, trajC5, dfltPoint, dfltImu, List.chain'_cons,
      DeskewByImuPropagation, extractTs, extractImuData_length]
  · simp [extC5, extractImuData_length, imuBufC5]
  · simp [trajC5, PropagateIMU, List.length_scanl, extC5,
      extractImuData_length, imuBufC5]

theorem pruneOdom_suffix (t : ℚ) (buf : List OdomSample) :
    pruneOdom t buf <:+ buf := by
  induction buf with
  | nil => simp [pruneOdom]
  | cons p rest ih =>
    cases rest with
    | nil => simp [pruneOdom]
    | cons p1 rs =>
      by_cases h : p1.stamp ≤ t
      · simp only [pruneOdom, if_pos h]
        exact ih.trans (List.suffix_cons p (p1 :: rs))
      · simp only [pruneOdom, if_neg h]
        exact List.suffix_refl _

theorem pruneOdom_snd_gt (t : ℚ) (buf : List OdomSample) (p0 p1 : OdomSample)
    (rest : List OdomSample) (h : pruneOdom t buf = p0 :: p1 :: rest) :
    t < p1.stamp := by
  induction buf with
  | nil => simp [pruneOdom] at h
  | cons p br ih =>
    cases br with
    | nil => simp [pruneOdom] at h
    | cons q rs =>
      by_cases hq : q.stamp ≤ t
      · rw [pruneOdom, if_pos hq] at h
        exact ih h
      · rw [pruneOdom, if_neg hq] at h
        obtain ⟨h1, h2⟩ := (List.cons.injEq ..).mp h
        obtain ⟨h3, h4⟩ := (List.cons.injEq ..).mp h2
        rw [← h3]
        exact not_le.mp hq

/-- C6: for every staged sweep start time `t` and every (time-ordered) pose
buffer, pairing succeeds exactly when, after dropping leading poses while
`odom_buf[1].stamp ≤ t`, the two leading pose samples bracket `t`
(`p0.stamp ≤ t ≤ p1.stamp`); the emitted sample is the front `p0` of the
pruned buffer, which is the most recent pose at or before `t`, and a
non-bracketing pair is never selected. -/
theorem matchOdom_pairs (t : ℚ) (buf : List OdomSample)
    (hs : List.Pairwise (fun a b : OdomSample => a.stamp ≤ b.stamp) buf) :
    ((matchOdom t buf).1.isSome ↔
      ∃ p0 p1 rest, pruneOdom t buf = p0 :: p1 :: rest ∧
        p0.stamp ≤ t ∧ t ≤ p1.stamp) ∧
    (∀ p, (matchOdom t buf).1 = some p →
      (∃ p1 rest, pruneOdom t buf = p :: p1 :: rest ∧
        p.stamp ≤ t ∧ t ≤ p1.stamp) ∧
      ∀ o ∈ buf, o.stamp ≤ t → o.stamp ≤ p.stamp) := by
  rcases hb : pruneOdom t buf with _ | ⟨p0, _ | ⟨p1, rest⟩⟩
  · constructor
    · simp only [matchOdom, hb]
      exact ⟨fun h => by simp at h, fun ⟨a, b, r, he, _⟩ => by simp at he⟩
    · intro p hp
      simp only [matchOdom, hb] at hp
      simp at hp
  · constructor
    · simp only [matchOdom, hb]
      exact ⟨fun h => by simp at h, fun ⟨a, b, r, he, _⟩ => by simp at he⟩
    · intro p hp
      simp only [matchOdom, hb] at hp
      simp at hp
  · by_cases hc : p0.stamp ≤ t ∧ t ≤ p1.stamp
    · have hm : (matchOdom t buf).1 = some p0 := by
        simp only [matchOdom, hb, if_pos hc]
      refine ⟨⟨fun _ => ⟨p0, p1, rest, rfl, hc⟩, fun _ => by simp [hm]⟩, ?_⟩
      intro p hp
      rw [hm] at hp
      obtain rfl : p0 = p := by
        have := (Option.some.injEq ..).mp hp
        exact this
      refine ⟨⟨p1, rest, rfl, hc⟩, ?_⟩
      intro o ho hot
      obtain ⟨pre, hpre⟩ := pruneOdom_suffix t buf
      rw [hb] at hpre
      rw [← hpre] at ho hs
      rw [List.pairwise_append] at hs
      rcases List.mem_append.mp ho with hoL | hoR
      · exact hs.2.2 o hoL p0 (by simp)
      · rcases List.mem_cons.mp hoR with rfl | hoR1
        · exact le_refl _
        · exfalso
          have hgt : t < p1.stamp := pruneOdom_snd_gt t buf p0 p1 rest hb
          rcases List.mem_cons.mp hoR1 with rfl | hoR2
          · exact absurd hot (not_le.mpr hgt)
          · have hple : p1.stamp ≤ o.stamp := by
              have hpw2 := hs.2.1
              rw [List.pairwise_cons] at hpw2
              have hpw3 := hpw2.2
              rw [List.pairwise_cons] at hpw3
              exact hpw3.1 o hoR2
            exact absurd hot (not_le.mpr (lt_of_lt_of_le hgt hple))
    · have hm : (matchOdom t buf).1 = none := by
        simp only [matchOdom, hb, if_neg hc]
      constructor
      · rw [hm]
        simp only [Option.isSome_none, Bool.false_eq_true, false_iff]
        rintro ⟨a, b, r, he, hle, hge⟩
        obtain ⟨h1, h2⟩ := (List.cons.injEq ..).mp he
        obtain ⟨h3, h4⟩ := (List.cons.injEq ..).mp h2
        subst h1
        subst h3
        exact hc ⟨hle, hge⟩
      · intro p hp
        rw [hm] at hp
        exact absurd hp (by simp)

/-- A pose sample carrying only a timestamp, used for concrete witnesses. -/
def odomAt (t : ℚ) : OdomSample := ⟨t, ⟨1, 0, 0, 0⟩, V3.zero, V3.zero⟩

/-- Witness for C6 at a concrete sorted buffer: for `t = 5` and stamps
`[1, 2, 6, 9]` the emitted pose is the one at stamp 2 — the most recent at
or before 5. -/
theorem matchOdom_pairs_witness :
    (∃ p1 rest, pruneOdom 5 [odomAt 1, odomAt 2, odomAt 6, odomAt 9] =
      odomAt 2 :: p1 :: rest ∧ (odomAt 2).stamp ≤ 5 ∧ 5 ≤ p1.stamp) ∧
    ∀ o ∈ [odomAt 1, odomAt 2, odomAt 6, odomAt 9],
      o.stamp ≤ 5 → o.stamp ≤ (odomAt 2).stamp :=
  (matchOdom_pairs 5 [odomAt 1, odomAt 2, odomAt 6, odomAt 9]
    (by decide)).2 (odomAt 2) (by decide)

theorem deskew_published_eq (cloud : List PointO) (odom : OdomSample)
    (ts : List ℚ) (out : List PointO)
    (h : DeskewByImuPropagation cloud odom ts = .published out) :
    out = cloud.map (fun pi =>
      let po := transformPoint odom.q odom.pos pi
      { po with intensity := pi.intensity, t := pi.t,
                reflectivity := pi.reflectivity }) := by
  simp only [DeskewByImuPropagation] at h
  split at h
  · exact absurd h (by simp)
  · split at h
    · exact ((DeskewResult.published.injEq ..).mp h).symm
    · exact absurd h (by simp)

theorem transformPoint_update (q : Quat) (pos : V3) (p : PointO) :
    (let po := transformPoint q pos p
     { po with intensity := p.intensity, t := p.t,
               reflectivity := p.reflectivity }) = transformPoint q pos p := by
  cases p
  rfl

def odomC7 : OdomSample := ⟨0, ⟨1, 0, 0, 0⟩, ⟨10, 0, 0⟩, V3.zero⟩

def tsC8 : List ℚ := [0, 1/64, 1/32, 3/64, 1/16, 5/64, 3/32, 7/64]

def cloudC8 : List PointO := [⟨1, 2, 3, 100000000, 7, 9⟩]

def cloudC7 : List PointO :=
  [⟨1, 2, 3, 200000000, 7, 9⟩, ⟨4, 5, 6, 100000000, 8, 11⟩]

/-- C7: for every point of the input cloud whose acquisition time lies
outside the propagated trajectory's coverage (no index `j` with
`ts[j] ≤ ti ≤ ts[j+1]`), the published deskewed cloud keeps that point at
its undistorted world-frame position — the input point transformed by the
paired start pose — and the point is not dropped (the output keeps the
input's length).  In the source this holds because the per-point
`ASSIGNMENT BLOCK` leaves `j = -1`, so the fallback initialisation
`po = cloudSkewedInWorld->points[i]` survives. -/
theorem deskew_fallback_out_of_coverage (cloud : List PointO)
    (odom : OdomSample) (ts : List ℚ) (out : List PointO) (i : ℕ)
    (hi : i < cloud.length)
    (h : DeskewByImuPropagation cloud odom ts = .published out)
    (hout : ∀ j < ts.length - 1,
      ¬ (ts.getD j 0 ≤ odom.stamp + ((cloud.getD i dfltPoint).t : ℚ) / 1000000000 ∧
         odom.stamp + ((cloud.getD i dfltPoint).t : ℚ) / 1000000000 ≤
           ts.getD (j + 1) 0)) :
    out.length = cloud.length ∧
    out.getD i dfltPoint =
      transformPoint odom.q odom.pos (cloud.getD i dfltPoint) := by
  have he := deskew_published_eq cloud odom ts out h
  subst he
  refine ⟨by simp, ?_⟩
  rw [List.getD_eq_getElem _ _ (by simpa using hi),
    List.getD_eq_getElem _ _ hi, List.getElem_map]
  exact transformPoint_update odom.q odom.pos _

/-- Witness for C7: the first point's relative time (0.2 s) exceeds the last
point's (0.1 s), so its acquisition time lies beyond every trajectory
bracket; it is published at its start-pose-transformed position. -/
theorem deskew_fallback_out_of_coverage_witness :
    ([⟨11, 2, 3, 200000000, 7, 9⟩, ⟨14, 5, 6, 100000000, 8, 11⟩] :
        List PointO).length = cloudC7.length ∧
    ([⟨11, 2, 3, 200000000, 7, 9⟩, ⟨14, 5, 6, 100000000, 8, 11⟩] :
        List PointO).getD 0 dfltPoint =
      transformPoint odomC7.q odomC7.pos (cloudC7.getD 0 dfltPoint) := by
  have hpub : DeskewByImuPropagation cloudC7 odomC7 tsC8 =
      DeskewResult.published
        [⟨11, 2, 3, 200000000, 7, 9⟩, ⟨14, 5, 6, 100000000, 8, 11⟩] := by
    norm_num [DeskewByImuPropagation, cloudC7, odomC7, tsC8, dfltPoint,
      transformPoint, Quat.rot, V3.add, V3.smul, V3.zero]
  refine deskew_fallback_out_of_coverage cloudC7 odomC7 tsC8 _ 0 (by decide)
    hpub ?_
  intro j hj
  have hj7 : j < 7 := by simpa [tsC8] using hj
  interval_cases j <;> norm_num [tsC8, cloudC7, odomC7, dfltPoint]

/-- C8: whenever `DeskewByImuPropagation` publishes a cloud, it has exactly
as many points as the input sweep, and every output point keeps the
corresponding input point's intensity, reflectivity, and relative time
unchanged. -/
theorem deskew_preserves_metadata (cloud : List PointO) (odom : OdomSample)
    (ts : List ℚ) (out : List PointO)
    (h : DeskewByImuPropagation cloud odom ts = .published out) :
    out.length = cloud.length ∧
    ∀ i, i < cloud.length →
      (out.getD i dfltPoint).intensity = (cloud.getD i dfltPoint).intensity ∧
      (out.getD i dfltPoint).reflectivity =
        (cloud.getD i dfltPoint).reflectivity ∧
      (out.getD i dfltPoint).t = (cloud.getD i dfltPoint).t := by
  have he := deskew_published_eq cloud odom ts out h
  subst he
  refine ⟨by simp, ?_⟩
  intro i hi
  rw [List.getD_eq_getElem _ _ (by simpa using hi),
    List.getD_eq_getElem _ _ hi, List.getElem_map]
  exact ⟨rfl, rfl, rfl⟩

/-- Witness for C8 at a concrete published call. -/
theorem deskew_preserves_metadata_witness :
    ([⟨11, 2, 3, 100000000, 7, 9⟩] : List PointO).length = cloudC8.length ∧
    (([⟨11, 2, 3, 100000000, 7, 9⟩] : List PointO).getD 0 dfltPoint).intensity =
      (cloudC8.getD 0 dfltPoint).intensity ∧
    (([⟨11, 2, 3, 100000000, 7, 9⟩] :
        List PointO).getD 0 dfltPoint).reflectivity =
      (cloudC8.getD 0 dfltPoint).reflectivity ∧
    (([⟨11, 2, 3, 100000000, 7, 9⟩] : List PointO).getD 0 dfltPoint).t =
      (cloudC8.getD 0 dfltPoint).t := by
  have hpub : DeskewByImuPropagation cloudC8 odomC7 tsC8 =
      DeskewResult.published [⟨11, 2, 3, 100000000, 7, 9⟩] := by
    norm_num [DeskewByImuPropagation, cloudC8, odomC7, tsC8, dfltPoint,
      transformPoint, Quat.rot, V3.add, V3.smul, V3.zero]
  have h := deskew_preserves_metadata cloudC8 odomC7 tsC8
    [⟨11, 2, 3, 100000000, 7, 9⟩] hpub
  exact ⟨h.1, h.2 0 (by decide)⟩

/-- C9: staging a new sweep while one is already held emits exactly one
"Throwing away a pointcloud" notification, discards the held sweep — it is
neither kept in the slot nor ever enqueued into the pairing queue — and the
new sweep takes its place in the single-slot staging area (the slot then
holds the new sweep, or is empty because the new sweep was immediately
paired into the queue). -/
theorem cloudCallback_drop (s : NodeState) (c oldc : Cloud)
    (hold : s.cloudHold = some oldc) (hne : oldc ≠ c) :
    (cloudCallback c s).dropWarns = s.dropWarns + 1 ∧
    (cloudCallback c s).cloudHold ≠ some oldc ∧
    ((cloudCallback c s).cloudHold = some c ∨
      (cloudCallback c s).cloudHold = none) ∧
    (∀ pr ∈ (cloudCallback c s).ocBuf, pr ∈ s.ocBuf ∨ pr.2 = c) := by
  have hnec : some c ≠ some oldc := by
    intro heq
    exact hne ((Option.some.injEq ..).mp heq).symm
  have hw : (if s.cloudHold.isSome then s.dropWarns + 1 else s.dropWarns) =
      s.dropWarns + 1 := by
    rw [hold]; rfl
  simp only [cloudCallback, hw]
  by_cases hodom : s.odomBuf.isEmpty = true
  · rw [if_pos hodom]
    exact ⟨rfl, hnec, Or.inl rfl, fun pr hpr => Or.inl hpr⟩
  · rw [if_neg hodom]
    simp only [matchOdomCloud]
    rcases hmo : matchOdom c.stamp s.odomBuf with ⟨op, b⟩
    cases op with
    | none =>
      simp only [hmo]
      exact ⟨trivial, hnec, Or.inl trivial, fun pr hpr => Or.inl hpr⟩
    | some p0 =>
      simp only [hmo, odomCloudCallback]
      split_ifs with h1 h2
      · exact ⟨rfl, by simp, Or.inr rfl, fun pr hpr => Or.inl hpr⟩
      · refine ⟨rfl, by simp, Or.inr rfl, ?_⟩
        intro pr hpr
        rcases List.mem_append.mp hpr with hl | hr
        · exact Or.inl hl
        · right
          have : pr = (p0, c) := by simpa using hr
          rw [this]
      · exact ⟨rfl, by simp, Or.inr rfl, fun pr hpr => Or.inl hpr⟩

/-- Witness for C9 at a concrete state holding an unpaired sweep. -/
theorem cloudCallback_drop_witness :
    (cloudCallback ⟨7, []⟩
        ⟨[], some ⟨5, []⟩, [], 10, 0, false⟩).dropWarns = 0 + 1 ∧
    (cloudCallback ⟨7, []⟩
        ⟨[], some ⟨5, []⟩, [], 10, 0, false⟩).cloudHold ≠ some ⟨5, []⟩ ∧
    ((cloudCallback ⟨7, []⟩
        ⟨[], some ⟨5, []⟩, [], 10, 0, false⟩).cloudHold = some ⟨7, []⟩ ∨
      (cloudCallback ⟨7, []⟩
        ⟨[], some ⟨5, []⟩, [], 10, 0, false⟩).cloudHold = none) ∧
    (∀ pr ∈ (cloudCallback ⟨7, []⟩
        ⟨[], some ⟨5, []⟩, [], 10, 0, false⟩).ocBuf,
      pr ∈ ([] : List (OdomSample × Cloud)) ∨ pr.2 = ⟨7, []⟩) :=
  cloudCallback_drop ⟨[], some ⟨5, []⟩, [], 10, 0, false⟩ ⟨7, []⟩ ⟨5, []⟩
    rfl (by decide)

end OblamDeskew
